import Mathlib

/-!
Verification of the EPS-to-Versaworks document rewriter
(`eps_to_versaworks.py`).  Documents are modelled as lists of
characters; a Python string `s` corresponds to `s.toList`.  The
functions below are direct shallow embeddings of the Python functions
`add_header_definitions`, `add_spot_color_support`,
`replace_stroke_commands` and `merge_eps_files` of the class
`EPSToVersaworksConverter` (with the fixed CutContour CMYK values
(0, 100, 0, 0) and the default stroke width 0.25).
-/

set_option maxHeartbeats 1000000
set_option maxRecDepth 100000

/-! ### Basic character and string utilities -/

/-- Python regex `\s` restricted to the ASCII whitespace characters
(space, tab, newline, carriage return, vertical tab, form feed). -/
def isWS (c : Char) : Bool :=
  c == ' ' || c == '\t' || c == '\n' || c == '\r' || c == '\x0b' || c == '\x0c'

/-- Python regex character class `[\d.]`: a decimal digit or a dot. -/
def isNumC (c : Char) : Bool :=
  c.isDigit || c == '.'

/-- Boolean list-prefix test: `isPre p l` iff `p` is an initial segment
of `l` (Python `str.startswith`). -/
def isPre : List Char → List Char → Bool
  | [], _ => true
  | _ :: _, [] => false
  | a :: ps, b :: ls => a == b && isPre ps ls

/-- Substring containment (Python `p in l`). -/
def containsTok (p : List Char) : List Char → Bool
  | [] => isPre p []
  | c :: r => isPre p (c :: r) || containsTok p r

/-- Number of starting positions at which `p` occurs in `l`
(substring-occurrence count). -/
def countSub (p : List Char) : List Char → Nat
  | [] => if isPre p [] then 1 else 0
  | c :: r => (if isPre p (c :: r) then 1 else 0) + countSub p r

/-- Index of the first occurrence of `p` in `l` (Python `str.find`,
with `-1` rendered as `none`). -/
def strFind (p : List Char) : List Char → Option Nat
  | [] => if isPre p [] then some 0 else none
  | c :: r => if isPre p (c :: r) then some 0 else (strFind p r).map (fun n => n + 1)

/-- Python `content.split('\n')`: always returns at least one (possibly
empty) line. -/
def splitLines : List Char → List (List Char)
  | [] => [[]]
  | c :: rest =>
    if c = '\n' then [] :: splitLines rest
    else
      match splitLines rest with
      | [] => [[c]]
      | h :: t => (c :: h) :: t

/-- Python `'\n'.join(lines)`. -/
def joinLines : List (List Char) → List Char
  | [] => []
  | [l] => l
  | l :: l2 :: rest => l ++ '\n' :: joinLines (l2 :: rest)

/-- Drop leading whitespace characters. -/
def dropWSL : List Char → List Char
  | [] => []
  | c :: r => if isWS c then dropWSL r else c :: r

/-- Python `str.strip()` (restricted to ASCII whitespace). -/
def stripWS (l : List Char) : List Char :=
  ((dropWSL ((dropWSL l).reverse)).reverse)

/-- All characters are whitespace. -/
def allWSB (l : List Char) : Bool := l.all isWS

/-! ### Tokens (literal strings from the Python source) -/

def pageTok : List Char := ("%%Page:").toList
def bpsTok : List Char := ("%%BeginPageSetup").toList
def trailerTok : List Char := ("%%Trailer").toList
def eofTok : List Char := ("%%EOF").toList
def bbPre : List Char := ("%%BoundingBox:").toList
def llPre : List Char := ("%%LanguageLevel:").toList
def dccTok : List Char := ("%%DocumentCustomColors:").toList
def dccLine : List Char := ("%%DocumentCustomColors: (CutContour)").toList
def cmykLine : List Char := ("%%CMYKCustomColor: 0.00 1.00 0.00 0.00 (CutContour)").toList
def endPrologTok : List Char := ("%%EndProlog").toList
def beginSetupTok : List Char := ("%%BeginSetup").toList
def epsTok : List Char := ("%%EndPageSetup").toList
def showpageTok : List Char := ("showpage").toList
def cmqTok : List Char := ("cm q").toList
def cmTok : List Char := ("cm").toList
def qTok : List Char := ("q").toList
def qqTok : List Char := ("Q Q").toList
def bbTok : List Char := ("%%BoundingBox:").toList
def sTokL : List Char := ("S").toList
def strokeTokL : List Char := ("stroke").toList
def ccsLine : List Char := ("SetCutContourStroke").toList
def shsLine : List Char := ("SetHairlineStroke").toList
def insText : List Char := ("SetCutContourStroke SetHairlineStroke ").toList
def rgTok : List Char := ("rg").toList
def setrgbTok : List Char := ("setrgbcolor").toList
def cmykOpTok : List Char := ("setcmykcolor").toList
def gTok : List Char := ("g").toList
def setgrayTok : List Char := ("setgray").toList
def wTok : List Char := ("w").toList
def setlwTok : List Char := ("setlinewidth").toList

/-! ### Header Annotator (`add_header_definitions`) -/

/-- Lookahead window test of `add_header_definitions`: Python
`any('%%DocumentCustomColors:' in t for t in lines[i:i+5])` where
`lines[i]` is the current line `l`. -/
def windowHasDcc (l : List Char) (rest : List (List Char)) : Bool :=
  (l :: rest.take 4).any (fun t => containsTok dccTok t)

/-- Line loop of `add_header_definitions`: after the first
`%%BoundingBox:`/`%%LanguageLevel:` line whose 5-line lookahead window
does not already contain a custom-color declaration, insert the two
declaration lines; `added` prevents a second insertion in the same
pass. -/
def annotGo (added : Bool) : List (List Char) → List (List Char)
  | [] => []
  | l :: rest =>
    if !added && (isPre bbPre l || isPre llPre l) && !windowHasDcc l rest then
      l :: dccLine :: cmykLine :: annotGo true rest
    else
      l :: annotGo added rest

/-- Python `add_header_definitions` (string to string). -/
def add_header_definitions (content : List Char) : List Char :=
  joinLines (annotGo false (splitLines content))

/-- Number of lines containing a `%%DocumentCustomColors:` declaration. -/
def dccLineCount (ls : List (List Char)) : Nat :=
  (ls.filter (fun l => containsTok dccTok l)).length

/-! ### Prolog Injector (`add_spot_color_support`) -/

/-- The injected PostScript procedure block `spot_color_code`, with the
fixed channel values `0.0 1.0 0.0 0.0` (CMYK (0,100,0,0) scaled to 0-1)
and the default stroke width `0.25`. -/
def spotColorCode : List Char :=
  ("\n% CutContour Spot Color Support (PostScript Level 2)\n% Use findcmykcustomcolor and setcustomcolor for spot color definition\n\n% Check if spot color operators are available, define if not\n/findcmykcustomcolor where \x7b\n  pop  % Operator exists, use it\n\x7d \x7b\n  % Fallback definition for Level 1 or if not available\n  /findcmykcustomcolor \x7b\n    5 array astore  % Store C, M, Y, K, name as array\n  \x7d def\n\x7d ifelse\n\n/setcustomcolor where \x7b\n  pop  % Operator exists, use it\n\x7d \x7b\n  % Fallback: convert to CMYK\n  /setcustomcolor \x7b\n    exch aload pop pop  % Get C, M, Y, K from array (discard name)\n    4 \x7b\n      4 index mul 4 1 roll  % Multiply each component by tint value\n    \x7d repeat\n    5 -1 roll pop  % Remove tint value\n    setcmykcolor\n  \x7d def\n\x7d ifelse\n\n% Define the CutContour spot color\n% Format: C M Y K (ColorName) findcmykcustomcolor\n/CutContourColor \x7b\n  0.0 1.0 0.0 0.0 (CutContour) findcmykcustomcolor\n\x7d def\n\n% Set CutContour for stroking with full tint (100%)\n/SetCutContourStroke \x7b\n  CutContourColor 1.0 setcustomcolor\n\x7d def\n\n% Set hairline stroke width  \n/SetHairlineStroke \x7b\n  0.25 setlinewidth\n\x7d def\n\n").toList

/-- Python `add_spot_color_support`: insert the procedure block before
the first `%%EndProlog`; if absent, before the first `%%BeginSetup`;
if neither exists, return the content unchanged (a diagnostic is
printed in the source, which is not modelled). -/
def add_spot_color_support (content : List Char) : List Char :=
  match strFind endPrologTok content with
  | some i => content.take i ++ spotColorCode ++ content.drop i
  | none =>
    match strFind beginSetupTok content with
    | some i => content.take i ++ spotColorCode ++ content.drop i
    | none => content

/-! ### Stroke Rewriter (`replace_stroke_commands`): line matchers -/

/-- Drop a maximal run of `[\d.]` characters. -/
def dropNumL : List Char → List Char
  | [] => []
  | c :: r => if isNumC c then dropNumL r else c :: r

/-- Regex piece `[\d.]+` (at least one digit-or-dot, maximal munch). -/
def reqNum1 : List Char → Option (List Char)
  | [] => none
  | c :: r => if isNumC c then some (dropNumL r) else none

/-- Regex piece `\s+` (at least one whitespace, maximal munch). -/
def reqWS1 : List Char → Option (List Char)
  | [] => none
  | c :: r => if isWS c then some (dropWSL r) else none

/-- Regex piece `[\d.]+\s+`. -/
def numSp (l : List Char) : Option (List Char) :=
  (reqNum1 l).bind reqWS1

/-- Regex tail `(op1|op2)\s*$`. -/
def matchTailTok (ops : List (List Char)) (l : List Char) : Bool :=
  ops.any (fun op => isPre op l && allWSB (l.drop op.length))

/-- Regex `^\s*[\d.]+\s+[\d.]+\s+[\d.]+\s+(rg|setrgbcolor)\s*$`. -/
def matchRGB (l : List Char) : Bool :=
  match ((numSp (dropWSL l)).bind numSp).bind numSp with
  | some r => matchTailTok [rgTok, setrgbTok] r
  | none => false

/-- Regex `^\s*[\d.]+\s+[\d.]+\s+[\d.]+\s+[\d.]+\s+setcmykcolor\s*$`. -/
def matchCMYK (l : List Char) : Bool :=
  match (((numSp (dropWSL l)).bind numSp).bind numSp).bind numSp with
  | some r => matchTailTok [cmykOpTok] r
  | none => false

/-- Regex `^\s*[\d.]+\s+(g|setgray)\s*$`. -/
def matchGray (l : List Char) : Bool :=
  match numSp (dropWSL l) with
  | some r => matchTailTok [gTok, setgrayTok] r
  | none => false

/-- Regex `^\s*[\d.]+\s+(w|setlinewidth)\s*$`. -/
def matchWidth (l : List Char) : Bool :=
  match numSp (dropWSL l) with
  | some r => matchTailTok [wTok, setlwTok] r
  | none => false

/-- Regex piece `(\s|$)` at the head of the remainder. -/
def wsOrEnd : List Char → Bool
  | [] => true
  | c :: _ => isWS c

/-- Regex piece `(S|stroke)(\s|$)` at the head of the remainder. -/
def tokAfterWs (rest : List Char) : Bool :=
  (isPre sTokL rest && wsOrEnd (rest.drop 1)) ||
  (isPre strokeTokL rest && wsOrEnd (rest.drop 6))

/-- Python `re.search(r'\s(S|stroke)(\s|$)', line)` (as a Boolean). -/
def hasInlineStroke : List Char → Bool
  | [] => false
  | c :: rest => (isWS c && tokAfterWs rest) || hasInlineStroke rest

/-- Regex `^\s*(S|stroke)\s*$`. -/
def matchStandaloneStroke (l : List Char) : Bool :=
  (isPre sTokL (dropWSL l) && allWSB ((dropWSL l).drop 1)) ||
  (isPre strokeTokL (dropWSL l) && allWSB ((dropWSL l).drop 6))

/-! ### Stroke Rewriter: the two substitutions on a matched line -/

/-- Attempt to match `(S|stroke)(\s)` at the head of `rest` (the part
of the line following a whitespace character), returning the token,
the trailing whitespace character, and the remainder after it. -/
def midTry (rest : List Char) : Option (List Char × Char × List Char) :=
  if isPre sTokL rest then
    match rest.drop 1 with
    | d :: r => if isWS d then some (sTokL, d, r) else none
    | [] => none
  else if isPre strokeTokL rest then
    match rest.drop 6 with
    | d :: r => if isWS d then some (strokeTokL, d, r) else none
    | [] => none
  else none

/-- Fuelled scan implementing Python
`re.sub(r'(\s)(S|stroke)(\s)', r'\1SetCutContourStroke SetHairlineStroke \2\3', line)`:
left-to-right, non-overlapping, resuming after each match. -/
def substMidF : Nat → List Char → List Char
  | 0, l => l
  | _ + 1, [] => []
  | n + 1, c :: rest =>
    if isWS c then
      match midTry rest with
      | some (tok, d, r) => c :: insText ++ tok ++ d :: substMidF n r
      | none => c :: substMidF n rest
    else c :: substMidF n rest

def substMid (l : List Char) : List Char := substMidF l.length l

/-- Number of replacements performed by `substMid`. -/
def midCountF : Nat → List Char → Nat
  | 0, _ => 0
  | _ + 1, [] => 0
  | n + 1, c :: rest =>
    if isWS c then
      match midTry rest with
      | some (_, _, r) => 1 + midCountF n r
      | none => midCountF n rest
    else midCountF n rest

def midCount (l : List Char) : Nat := midCountF l.length l

/-- Python `re.sub(r'(\s)(S|stroke)$', r'\1SetCutContourStroke SetHairlineStroke \2', line)`
(the pattern can match at most once, at the end of the line). -/
def substEnd : List Char → List Char
  | [] => []
  | c :: rest =>
    if isWS c && (rest == sTokL || rest == strokeTokL) then c :: insText ++ rest
    else c :: substEnd rest

/-- Whether the end-of-line substitution fires. -/
def endFires : List Char → Bool
  | [] => false
  | c :: rest => (isWS c && (rest == sTokL || rest == strokeTokL)) || endFires rest

/-! ### Stroke Rewriter: the per-line state machine -/

/-- Classification of one line by the branch of the
`replace_stroke_commands` loop that handles it. -/
inductive LineAction : Type where
  | enterPage
  | exitPage
  | passthrough
  | deleteLine
  | widthReplace
  | inlineRewrite
  | standaloneInsert
deriving DecidableEq

/-- The branch cascade of the `replace_stroke_commands` loop, in source
order. -/
def lineAction (inPage : Bool) (l : List Char) : LineAction :=
  if containsTok pageTok l || containsTok bpsTok l then .enterPage
  else if containsTok trailerTok l || containsTok eofTok l then .exitPage
  else if !inPage then .passthrough
  else if matchRGB l then .deleteLine
  else if matchCMYK l then .deleteLine
  else if matchGray l then .deleteLine
  else if matchWidth l then .widthReplace
  else if hasInlineStroke l then .inlineRewrite
  else if matchStandaloneStroke l then .standaloneInsert
  else .passthrough

/-- The `in_page` flag after processing line `l`. -/
def nextInPage (inPage : Bool) (l : List Char) : Bool :=
  match lineAction inPage l with
  | .enterPage => true
  | .exitPage => false
  | _ => inPage

/-- The output lines produced for one input line. -/
def lineOut (a : LineAction) (l : List Char) : List (List Char) :=
  match a with
  | .deleteLine => []
  | .widthReplace => [shsLine]
  | .inlineRewrite => [substEnd (substMid l)]
  | .standaloneInsert => [ccsLine, shsLine, l]
  | _ => [l]

/-- The line loop of `replace_stroke_commands` (initial state
`in_page = False`). -/
def processLines (inPage : Bool) : List (List Char) → List (List Char)
  | [] => []
  | l :: rest => lineOut (lineAction inPage l) l ++ processLines (nextInPage inPage l) rest

/-- Like `processLines`, but each emitted line is paired with the
`in_page` state in effect when it is emitted (page-start marker lines
are inside, trailer marker lines outside). -/
def processAnnot (inPage : Bool) : List (List Char) → List (Bool × List Char)
  | [] => []
  | l :: rest =>
    (lineOut (lineAction inPage l) l).map (fun t => (nextInPage inPage l, t)) ++
      processAnnot (nextInPage inPage l) rest

/-- Python `replace_stroke_commands` (string to string). -/
def replace_stroke_commands (content : List Char) : List Char :=
  joinLines (processLines false (splitLines content))

/-- Number of stroke-token sites that the two substitutions rewrite in
one stroke-inline line. -/
def lineSites (l : List Char) : Nat :=
  midCount l + (if endFires (substMid l) then 1 else 0)

/-- Number of lines handled by the stroke-standalone branch. -/
def standaloneCount (inPage : Bool) : List (List Char) → Nat
  | [] => 0
  | l :: rest =>
    (match lineAction inPage l with
     | .standaloneInsert => 1
     | _ => 0) + standaloneCount (nextInPage inPage l) rest

/-- Number of lines handled by the stroke-inline branch. -/
def inlineLineCount (inPage : Bool) : List (List Char) → Nat
  | [] => 0
  | l :: rest =>
    (match lineAction inPage l with
     | .inlineRewrite => 1
     | _ => 0) + inlineLineCount (nextInPage inPage l) rest

/-- Total number of stroke-token sites rewritten over all
stroke-inline lines. -/
def inlineSites (inPage : Bool) : List (List Char) → Nat
  | [] => 0
  | l :: rest =>
    (match lineAction inPage l with
     | .inlineRewrite => lineSites l
     | _ => 0) + inlineSites (nextInPage inPage l) rest

/-- Total count of `SetCutContourStroke` occurrences over a line list. -/
def linesCcs (ls : List (List Char)) : Nat :=
  (ls.map (countSub ccsLine)).sum

/-- Whether three given lines occur consecutively in a line list. -/
def tripleAt (a b c : List Char) : List (List Char) → Bool
  | x :: y :: z :: rest => (x == a && y == b && z == c) || tripleAt a b c (y :: z :: rest)
  | _ => false

/-! ### Document Merger (`merge_eps_files`) -/

/-- The uppercase `Q` token (graphics state restore). -/
def qTokU : List Char := ("Q").toList
def qqNlTok : List Char := ("Q Q\n").toList
def spNlTok : List Char := ("showpage\n").toList

/-- Regex piece `\s*\n` with greedy backtracking: consume the maximal
whitespace run ending in its last `'\n'`; fail if the whitespace run
contains no newline.  Returns the remainder after that newline. -/
def afterWsNl : List Char → Option (List Char)
  | [] => none
  | c :: r =>
    if isWS c then
      match afterWsNl r with
      | some t => some t
      | none => if c = '\n' then some r else none
    else none

/-- Lazy group of `(.*?)\s*showpage`: the shortest prefix whose
remainder consists of whitespace followed by `showpage`. -/
def grabShowpage : List Char → Option (List Char)
  | [] => none
  | c :: r =>
    if isPre showpageTok (dropWSL (c :: r)) then some []
    else (grabShowpage r).map (fun g => c :: g)

/-- Lazy group of `(.*?)lit`: the shortest prefix followed directly by
the literal `lit` (the literal excluded from the group). -/
def grabLit (lit : List Char) : List Char → Option (List Char)
  | [] => none
  | c :: r =>
    if isPre lit (c :: r) then some []
    else (grabLit lit r).map (fun g => c :: g)

/-- Lazy group of `(.*?cm q)`: the shortest prefix ending in the
literal `cm q` (the literal included in the group). -/
def grabCmq : List Char → Option (List Char)
  | [] => none
  | c :: r =>
    if isPre cmqTok (c :: r) then some cmqTok
    else (grabCmq r).map (fun g => c :: g)

/-- Python `re.search(r'%%EndPageSetup\s*\n(...)', content, re.DOTALL)`:
scan for the leftmost `%%EndPageSetup` occurrence at which `\s*\n`
and the continuation `grab` both complete. -/
def epsSearch (grab : List Char → Option (List Char)) : List Char → Option (List Char)
  | [] => none
  | c :: r =>
    if isPre epsTok (c :: r) then
      match afterWsNl ((c :: r).drop 14) with
      | some tail =>
        match grab tail with
        | some g => some g
        | none => epsSearch grab r
      | none => epsSearch grab r
    else epsSearch grab r

/-- Group 1 of `re.search(r'%%EndPageSetup\s*\n(.*?)\s*showpage', print_content, re.DOTALL)`. -/
def print_full_extract (p : List Char) : Option (List Char) :=
  epsSearch grabShowpage p

/-- Group 1 of `re.search(r'%%EndPageSetup\s*\n(.*?)%%Trailer', cut_content, re.DOTALL)`. -/
def cut_full_extract (c : List Char) : Option (List Char) :=
  epsSearch (grabLit trailerTok) c

/-- Group 1 of `re.search(r'%%EndPageSetup\s*\n(.*?cm q)', cut_content, re.DOTALL)`. -/
def cut_setup_extract (c : List Char) : Option (List Char) :=
  epsSearch grabCmq c

/-- `graphics_setup`: the stripped group of `cut_setup_extract`, or
`""` (with a warning, not modelled) when absent. -/
def graphics_setup (c : List Char) : List Char :=
  match cut_setup_extract c with
  | none => []
  | some g => stripWS g

/-- Loop locating `start_idx`: the line index one past the first line
containing `cm q` (or both `cm` and `q`); `0` if no such line. -/
def startIdxGo : List (List Char) → Nat → Nat
  | [], _ => 0
  | l :: r, i =>
    if containsTok cmqTok l || (containsTok cmTok l && containsTok qTok l) then i + 1
    else startIdxGo r (i + 1)

def start_idx (ls : List (List Char)) : Nat := startIdxGo ls 0

/-- Downward loop of the print extraction: from the last line towards
`stop` (exclusive), return the index of the first line whose stripped
text is `Q Q` or `Q`; otherwise the number of lines. -/
def print_end_go (ls : List (List Char)) (stop : Nat) : Nat → Nat
  | 0 => ls.length
  | i + 1 =>
    if stop < i + 1 then
      if stripWS (ls.getD (i + 1) []) == qqTok || stripWS (ls.getD (i + 1) []) == qTokU then i + 1
      else print_end_go ls stop i
    else ls.length

def print_end_idx (ls : List (List Char)) (stop : Nat) : Nat :=
  print_end_go ls stop (ls.length - 1)

/-- Downward loop of the cut extraction: walk up over closing tokens
(`Q Q`, `Q`, `showpage`) and blank lines, remembering the topmost
closing-token index, and stop at the first other nonempty line. -/
def cut_end_go (ls : List (List Char)) (stop : Nat) : Nat → Nat → Nat
  | 0, acc => acc
  | i + 1, acc =>
    if stop < i + 1 then
      if stripWS (ls.getD (i + 1) []) == qqTok || stripWS (ls.getD (i + 1) []) == qTokU ||
          stripWS (ls.getD (i + 1) []) == showpageTok then
        cut_end_go ls stop i (i + 1)
      else if stripWS (ls.getD (i + 1) []) == ([] : List Char) then
        cut_end_go ls stop i acc
      else acc
    else acc

def cut_end_idx (ls : List (List Char)) (stop : Nat) : Nat :=
  cut_end_go ls stop (ls.length - 1) ls.length

/-- `print_drawing_commands` of `merge_eps_files` (with the `""`
fallback when the extraction regex does not match). -/
def print_drawing_commands (p : List Char) : List Char :=
  match print_full_extract p with
  | none => []
  | some full =>
    let ls := splitLines full
    let s := start_idx ls
    let e := print_end_idx ls s
    stripWS (joinLines ((ls.drop s).take (e - s)))

/-- `cut_drawing_commands` of `merge_eps_files` (with the `""`
fallback when the extraction regex does not match). -/
def cut_drawing_commands (c : List Char) : List Char :=
  match cut_full_extract c with
  | none => []
  | some full =>
    let ls := splitLines full
    let s := start_idx ls
    let e := cut_end_idx ls s
    stripWS (joinLines ((ls.drop s).take (e - s)))

/-- Group 1 of `re.search(r'(%%Page:.*?%%EndPageSetup)', cut_content, re.DOTALL)`:
from the first `%%Page:` to the end of the first following
`%%EndPageSetup`. -/
def page_header_extract (c : List Char) : Option (List Char) :=
  match strFind pageTok c with
  | none => none
  | some i =>
    match strFind epsTok ((c.drop i).drop 7) with
    | none => none
    | some j => some ((c.drop i).take (7 + j + 14))

/-- The numeric tail of the bounding-box regex:
`\s*([\d.]+)\s+([\d.]+)\s+([\d.]+)\s+([\d.]+)`. -/
def bboxNums (l : List Char) : Bool :=
  match (((numSp (dropWSL l)).bind numSp).bind numSp).bind reqNum1 with
  | some _ => true
  | none => false

/-- Python `re.search(r'%%BoundingBox:\s*([\d.]+)\s+([\d.]+)\s+([\d.]+)\s+([\d.]+)', cut_content)`
(as a Boolean: only existence is used). -/
def searchBBox : List Char → Bool
  | [] => false
  | c :: r =>
    (isPre bbTok (c :: r) && bboxNums ((c :: r).drop 14)) || searchBBox r

/-- Python `merge_eps_files` on the two file contents; `none` models
`return False` (no output file written), `some out` models a
successful merge writing `out`. -/
def merge_eps_files (printC cutC : List Char) : Option (List Char) :=
  if searchBBox cutC then
    match page_header_extract cutC with
    | none => none
    | some ph =>
      match strFind pageTok cutC, strFind trailerTok cutC with
      | some ps, some ts =>
        some (cutC.take ps ++ ph ++ '\n' :: graphics_setup cutC ++ '\n' ::
          print_drawing_commands printC ++ '\n' :: cut_drawing_commands cutC ++ '\n' ::
          qqNlTok ++ spNlTok ++ cutC.drop ts)
      | _, _ => none
  else none

/-! ### Concrete documents used as test inputs -/

/-- Failing input for the Header Annotator idempotence claim: a header
with both a bounding-box and a language-level line. -/
def hdr2TrigDoc : List Char :=
  ("%%BoundingBox: 0 0 100 100\n%%LanguageLevel: 2").toList

/-- The bounding-box header line of the spec scenario. -/
def bbLine100 : List Char := ("%%BoundingBox: 0 0 100 100").toList

/-- A document whose language-level line precedes its bounding-box
line. -/
def llFirstDoc : List (List Char) :=
  [("%%LanguageLevel: 2").toList, bbLine100, ("%%EndComments").toList]

/-- A print document with no `%%EndPageSetup` marker. -/
def printNoSetupDoc : List Char := ("%!PS\nno setup here\nshowpage\n").toList

/-- A complete cut document (all merge markers present). -/
def cutFullDoc : List Char :=
  ("%!PS\n%%BoundingBox: 0 0 10 10\n%%EndProlog\n%%Page: 1 1\n%%EndPageSetup\nq 0 0 10 10 rectclip\n1 0 0 -1 0 10 cm q\n0 0 m 5 5 l S\nQ Q\nshowpage\n%%Trailer\n%%EOF\n").toList

/-- A complete print document (setup-end marker and page-paint
present). -/
def printFullDoc : List Char :=
  ("%!PS\n%%EndPageSetup\n1 0 0 -1 0 10 cm q\n0 0 m 9 9 l f\nQ Q\nshowpage\n").toList

/-- The result of merging `printFullDoc` with `cutFullDoc`. -/
def mergedDoc : List Char := (merge_eps_files printFullDoc cutFullDoc).getD []

/-- Counterexample document for the activation-count claim: a
pre-existing activation token outside any page, and an in-page line
with two separated stroke tokens. -/
def ccsCountDoc : List Char :=
  ("SetCutContourStroke\n%%Page: 1 1\na S b S c").toList

/-- Witness document for the amended activation-count claim. -/
def ccsWitnessDoc : List Char :=
  ("%%Page: 1 1\n1 0 0 setrgbcolor\nS\na S b\n%%Trailer").toList

/-- A page-start marker line. -/
def pgLine : List Char := ("%%Page: 1 1").toList

/-- A stroke line carrying leading whitespace. -/
def spSLine : List Char := (" S").toList

/-- The scenario lines of the stroke-rewriter claim. -/
def rgbLineC5 : List Char := ("1 0 0 setrgbcolor").toList
def wLineC5 : List Char := ("0.5 w").toList
def strokeLineC5 : List Char := ("10 20 m 30 40 l S").toList
def strokeLineC5rw : List Char :=
  ("10 20 m 30 40 l SetCutContourStroke SetHairlineStroke S").toList

/-- A document with no page-start marker but with trailer markers and
instruction-shaped lines. -/
def noPageDoc : List Char := ("a S\n%%Trailer\n0.5 w").toList

/-- A document containing an `%%EndProlog` marker at index 2. -/
def prologDoc : List Char := ("AB%%EndProlog CD").toList

/-! ### Helper lemmas: split and join -/

theorem splitLines_ne_nil (l : List Char) : splitLines l ≠ [] := by
  induction l with
  | nil => simp [splitLines]
  | cons c r ih =>
    simp only [splitLines]
    split
    · simp
    · cases h : splitLines r with
      | nil => exact absurd h ih
      | cons a b => simp

theorem joinLines_splitLines (l : List Char) : joinLines (splitLines l) = l := by
  induction l with
  | nil => rfl
  | cons c r ih =>
    simp only [splitLines]
    split
    · rename_i hc
      subst hc
      cases h : splitLines r with
      | nil => exact absurd h (splitLines_ne_nil r)
      | cons a b =>
        rw [h] at ih
        cases b with
        | nil => simp [joinLines, joinLines] at ih ⊢; exact ih
        | cons b1 b2 => simp [joinLines] at ih ⊢; exact ih
    · cases h : splitLines r with
      | nil => exact absurd h (splitLines_ne_nil r)
      | cons a b =>
        rw [h] at ih
        cases b with
        | nil =>
          simp [joinLines] at ih
          simp [joinLines, ih]
        | cons b1 b2 =>
          simp [joinLines] at ih ⊢
          exact ih

/-! ### Helper lemmas: prefix, find, occurrence counting -/

theorem isPre_nil_false {p : List Char} (h : p ≠ []) : isPre p [] = false := by
  cases p with
  | nil => exact absurd rfl h
  | cons a ps => rfl

theorem isPre_append : ∀ (p l : List Char), isPre p l = true → l = p ++ l.drop p.length := by
  intro p
  induction p with
  | nil => intro l _; simp
  | cons a ps ih =>
    intro l h
    cases l with
    | nil => simp [isPre] at h
    | cons b ls =>
      simp only [isPre, Bool.and_eq_true, beq_iff_eq] at h
      obtain ⟨hab, h2⟩ := h
      subst hab
      have h3 := ih ls h2
      simp only [List.cons_append, List.length_cons, List.drop_succ_cons]
      exact congrArg (a :: ·) h3

theorem strFind_isPre (p : List Char) : ∀ (l : List Char) (i : Nat),
    strFind p l = some i → isPre p (l.drop i) = true := by
  intro l
  induction l with
  | nil =>
    intro i h
    simp only [strFind] at h
    split at h
    · rename_i hp
      cases h
      simpa using hp
    · cases h
  | cons c r ih =>
    intro i h
    simp only [strFind] at h
    split at h
    · rename_i hp
      cases h
      simpa using hp
    · cases hr : strFind p r with
      | none => rw [hr] at h; simp at h
      | some i' =>
        rw [hr] at h
        simp only [Option.map_some'] at h
        cases h
        simpa using ih i' hr

theorem beq_false_of_isWS {x c : Char} (hx : isWS x = false) (hc : isWS c = true) :
    (x == c) = false := by
  cases h : (x == c)
  · rfl
  · have hxc := eq_of_beq h
    subst hxc
    rw [hx] at hc
    cases hc

theorem isPre_append_sep {c : Char} :
    ∀ (p xs ys : List Char), c ∉ p → isPre p (xs ++ c :: ys) = isPre p xs := by
  intro p
  induction p with
  | nil => intro xs ys _; rfl
  | cons a ps ih =>
    intro xs ys hc
    cases xs with
    | nil =>
      have hca : (a == c) = false := by
        cases h : (a == c)
        · rfl
        · exact absurd ((eq_of_beq h) ▸ List.mem_cons_self a ps) hc
      simp only [List.nil_append, isPre, hca, Bool.false_and]
    | cons b xs' =>
      simp only [List.cons_append, isPre, List.append_eq]
      rw [ih xs' ys (fun h => hc (List.mem_cons_of_mem a h))]

theorem countSub_append_sep {c : Char} :
    ∀ (p xs ys : List Char), c ∉ p →
    countSub p (xs ++ c :: ys) = countSub p xs + countSub p ys := by
  intro p xs ys hc
  induction xs with
  | nil =>
    simp only [List.nil_append, countSub]
    rw [show isPre p (c :: ys) = isPre p [] from isPre_append_sep p [] ys hc]
  | cons b xs' ih =>
    simp only [List.cons_append, countSub, List.append_eq]
    simp only [show isPre p (b :: (xs' ++ c :: ys)) = isPre p (b :: xs') from
      isPre_append_sep p (b :: xs') ys hc]
    rw [ih]
    omega

theorem countSub_joinLines (p : List Char) (hp : '\n' ∉ p) (hne : p ≠ []) :
    ∀ ls : List (List Char), countSub p (joinLines ls) = (ls.map (countSub p)).sum := by
  intro ls
  induction ls with
  | nil => simp [joinLines, countSub, isPre_nil_false hne]
  | cons l ls ih =>
    cases ls with
    | nil => simp [joinLines]
    | cons l2 ls' =>
      rw [show joinLines (l :: l2 :: ls') = l ++ '\n' :: joinLines (l2 :: ls') from rfl]
      rw [countSub_append_sep p l (joinLines (l2 :: ls')) hp, ih]
      simp

/-! ### Claim C7: Prolog Injector insertion position -/

/-- C7: the Prolog Injector inserts its procedure block immediately
before the first `%%EndProlog` marker; if that marker is absent it
inserts immediately before the first `%%BeginSetup` marker; if neither
marker exists it returns the Document unchanged (the diagnostic print
is a side effect outside the model). -/
theorem C7_injection_position (content : List Char) :
    (∀ i, strFind endPrologTok content = some i →
      add_spot_color_support content = content.take i ++ spotColorCode ++ content.drop i ∧
      isPre endPrologTok (content.drop i) = true) ∧
    (strFind endPrologTok content = none →
      ∀ j, strFind beginSetupTok content = some j →
        add_spot_color_support content = content.take j ++ spotColorCode ++ content.drop j ∧
        isPre beginSetupTok (content.drop j) = true) ∧
    (strFind endPrologTok content = none → strFind beginSetupTok content = none →
      add_spot_color_support content = content) := by
  refine ⟨?_, ?_, ?_⟩
  · intro i hi
    refine ⟨?_, strFind_isPre _ _ _ hi⟩
    simp [add_spot_color_support, hi]
  · intro h j hj
    refine ⟨?_, strFind_isPre _ _ _ hj⟩
    simp [add_spot_color_support, h, hj]
  · intro h1 h2
    simp [add_spot_color_support, h1, h2]

/-- Witness for C7 at a concrete document whose `%%EndProlog` marker
sits at index 2. -/
theorem C7_injection_position_witness :
    strFind endPrologTok prologDoc = some 2 ∧
    add_spot_color_support prologDoc =
      prologDoc.take 2 ++ spotColorCode ++ prologDoc.drop 2 ∧
    isPre endPrologTok (prologDoc.drop 2) = true :=
  ⟨by decide, ((C7_injection_position prologDoc).1 2 (by decide)).1,
    ((C7_injection_position prologDoc).1 2 (by decide)).2⟩

/-! ### Claim C2: Header Annotator idempotence (violated by the code) -/

/-- C2 (failing-input evaluation): on a header with both a
bounding-box line and a language-level line, a second application of
`add_header_definitions` changes the Document again and yields two
custom-color declaration lines, contradicting the claimed idempotence. -/
theorem C2_double_annotation_failing :
    add_header_definitions (add_header_definitions hdr2TrigDoc) ≠
      add_header_definitions hdr2TrigDoc ∧
    dccLineCount (splitLines (add_header_definitions (add_header_definitions hdr2TrigDoc))) = 2 ∧
    dccLineCount (splitLines (add_header_definitions hdr2TrigDoc)) = 1 := by
  refine ⟨by decide, by decide, by decide⟩

/-! ### Claim C9: Header Annotator insertion scenario -/

/-- C9 (amended): when the `%%BoundingBox: 0 0 100 100` line is the
first bounding-box/language-level line of the Document and no
custom-color declaration occurs in its five-line lookahead window, the
Header Annotator inserts `%%DocumentCustomColors: (CutContour)` and
`%%CMYKCustomColor: 0.00 1.00 0.00 0.00 (CutContour)` immediately
after that line. -/
theorem C9_header_insertion (pre post : List (List Char))
    (h1 : ∀ l ∈ pre, (isPre bbPre l || isPre llPre l) = false)
    (h2 : windowHasDcc bbLine100 post = false) :
    annotGo false (pre ++ bbLine100 :: post) =
      pre ++ bbLine100 :: dccLine :: cmykLine :: annotGo true post := by
  induction pre with
  | nil =>
    have hb : (isPre bbPre bbLine100 || isPre llPre bbLine100) = true := by decide
    simp [annotGo, hb, h2]
  | cons l pre' ih =>
    have hl : (isPre bbPre l || isPre llPre l) = false :=
      h1 l (List.mem_cons_self l pre')
    simp only [List.cons_append, annotGo, hl, Bool.and_false, Bool.false_and,
      Bool.and_self, Bool.false_eq_true, if_false, List.cons.injEq, true_and]
    exact ih (fun x hx => h1 x (List.mem_cons_of_mem l hx))

/-- Witness for C9 on a concrete three-line document. -/
theorem C9_header_insertion_witness :
    annotGo false ([("%!PS-Adobe-3.0").toList] ++ bbLine100 :: [("%%EndComments").toList]) =
      [("%!PS-Adobe-3.0").toList] ++
        bbLine100 :: dccLine :: cmykLine :: annotGo true [("%%EndComments").toList] :=
  C9_header_insertion _ _ (by decide) (by decide)

/-- Counterexample for C9 as stated: in a Document whose
language-level line precedes the bounding-box line (and which contains
no custom-color declaration at all), the two declaration lines are not
inserted after the bounding-box line (they go after the language-level
line instead). -/
theorem C9_insertion_counterexample :
    bbLine100 ∈ llFirstDoc ∧
    (∀ l ∈ llFirstDoc, containsTok dccTok l = false) ∧
    tripleAt bbLine100 dccLine cmykLine (annotGo false llFirstDoc) = false := by
  refine ⟨by decide, by decide, by decide⟩

/-! ### Claim C1: Document Merger failure behaviour -/

/-- C1 (amended): the Document Merger fails (writes no output) exactly
when the cut Document's bounding box, its `%%Page: ... %%EndPageSetup`
page-setup block, or its `%%Page:`/`%%Trailer` markers cannot be
located; failure of the print or cut drawing-command extraction or of
the graphics-setup extraction is degraded to empty extracted content
with a warning instead of failing. -/
theorem C1_merge_fatal_iff (p c : List Char) :
    merge_eps_files p c = none ↔
      (searchBBox c = false ∨ page_header_extract c = none ∨
       strFind pageTok c = none ∨ strFind trailerTok c = none) := by
  unfold merge_eps_files
  cases hb : searchBBox c
  · simp
  · simp only [if_true]
    cases hph : page_header_extract c
    · simp
    · cases hp : strFind pageTok c
      · simp
      · cases ht : strFind trailerTok c
        · simp
        · simp

/-- Counterexample for C1 as stated: the setup-end marker
(`%%EndPageSetup`) is absent from the print Document, so the print
drawing-command extraction fails, yet the merge succeeds and produces
output. -/
theorem C1_partial_merge_counterexample :
    containsTok epsTok printNoSetupDoc = false ∧
    print_full_extract printNoSetupDoc = none ∧
    (merge_eps_files printNoSetupDoc cutFullDoc).isSome = true := by
  refine ⟨by decide, by decide, by decide⟩

/-! ### Claim C8: merged Document structure -/

/-- C8: every successful merge output consists, in order, of the cut
Document's header and prolog (everything before its first `%%Page:`),
the cut Document's page header (`%%Page:` up to `%%EndPageSetup`) and
graphics setup, the print Document's extracted drawing commands, the
cut Document's extracted drawing commands, a single state-restore
(`Q Q`) and a single page-paint (`showpage`) instruction, and the cut
Document's trailer (everything from its first `%%Trailer`). -/
theorem C8_merge_structure (p c out : List Char) (h : merge_eps_files p c = some out) :
    searchBBox c = true ∧
    (page_header_extract c).isSome = true ∧
    (strFind pageTok c).isSome = true ∧
    (strFind trailerTok c).isSome = true ∧
    out = c.take ((strFind pageTok c).getD 0) ++ (page_header_extract c).getD [] ++
      '\n' :: graphics_setup c ++ '\n' :: print_drawing_commands p ++
      '\n' :: cut_drawing_commands c ++ '\n' :: qqNlTok ++ spNlTok ++
      c.drop ((strFind trailerTok c).getD 0) := by
  unfold merge_eps_files at h
  cases hb : searchBBox c <;> rw [hb] at h
  · simp at h
  · simp only [if_true] at h
    cases hph : page_header_extract c <;> rw [hph] at h
    · simp at h
    · cases hp : strFind pageTok c <;> rw [hp] at h
      · simp at h
      · cases ht : strFind trailerTok c <;> rw [ht] at h
        · simp at h
        · simp only [Option.some.injEq] at h
          refine ⟨rfl, rfl, rfl, rfl, ?_⟩
          simp [← h]

/-- Witness for C8 on a concrete (print, cut) pair on which the merge
succeeds. -/
theorem C8_merge_structure_witness :
    merge_eps_files printFullDoc cutFullDoc = some mergedDoc ∧
    (searchBBox cutFullDoc = true ∧
     (page_header_extract cutFullDoc).isSome = true ∧
     (strFind pageTok cutFullDoc).isSome = true ∧
     (strFind trailerTok cutFullDoc).isSome = true ∧
     mergedDoc = cutFullDoc.take ((strFind pageTok cutFullDoc).getD 0) ++
       (page_header_extract cutFullDoc).getD [] ++
       '\n' :: graphics_setup cutFullDoc ++ '\n' :: print_drawing_commands printFullDoc ++
       '\n' :: cut_drawing_commands cutFullDoc ++ '\n' :: qqNlTok ++ spNlTok ++
       cutFullDoc.drop ((strFind trailerTok cutFullDoc).getD 0)) := by
  have h : merge_eps_files printFullDoc cutFullDoc = some mergedDoc := by decide
  exact ⟨h, C8_merge_structure printFullDoc cutFullDoc mergedDoc h⟩

/-! ### Helper lemmas: the stroke rewriter state machine -/

theorem lineAction_false (l : List Char) :
    lineAction false l = .enterPage ∨ lineAction false l = .exitPage ∨
      lineAction false l = .passthrough := by
  by_cases h1 : (containsTok pageTok l || containsTok bpsTok l) = true <;>
  by_cases h2 : (containsTok trailerTok l || containsTok eofTok l) = true <;>
  simp [lineAction, h1, h2]

theorem processLines_no_marker : ∀ (L : List (List Char)),
    (∀ l ∈ L, containsTok pageTok l = false ∧ containsTok bpsTok l = false) →
    processLines false L = L := by
  intro L
  induction L with
  | nil => intro _; rfl
  | cons l rest ih =>
    intro h
    obtain ⟨hp, hb⟩ := h l (List.mem_cons_self l rest)
    by_cases h2 : (containsTok trailerTok l || containsTok eofTok l) = true <;>
      simp [processLines, lineOut, nextInPage, lineAction, hp, hb, h2,
        ih (fun x hx => h x (List.mem_cons_of_mem l hx))]

/-! ### Claim C6: lines outside page regions pass through -/

/-- C6: a line processed while outside a page region (the state before
the first page-start marker, or after a trailer/end-of-file marker) is
passed through unmodified regardless of its content; the in-page state
is then updated only by the page-start and trailer markers. -/
theorem C6_outside_page_passthrough (l : List Char) (rest : List (List Char)) :
    processLines false (l :: rest) = l :: processLines (nextInPage false l) rest := by
  rcases lineAction_false l with h | h | h <;>
    simp [processLines, lineOut, h]

/-! ### Claim C10: documents with no page-start marker are unchanged -/

/-- C10: a Document none of whose lines contains `%%Page:` or
`%%BeginPageSetup` is returned completely unchanged by the Stroke
Rewriter, whatever instruction shapes its lines match. -/
theorem C10_no_page_marker_id (content : List Char)
    (h : ∀ l ∈ splitLines content,
      containsTok pageTok l = false ∧ containsTok bpsTok l = false) :
    replace_stroke_commands content = content := by
  unfold replace_stroke_commands
  rw [processLines_no_marker _ h]
  exact joinLines_splitLines content

/-- Witness for C10 on a document containing stroke, width and trailer
lines but no page-start marker. -/
theorem C10_no_page_marker_id_witness :
    (∀ l ∈ splitLines noPageDoc,
      containsTok pageTok l = false ∧ containsTok bpsTok l = false) ∧
    replace_stroke_commands noPageDoc = noPageDoc :=
  ⟨by decide, C10_no_page_marker_id noPageDoc (by decide)⟩

/-! ### Claim C5: the concrete rewrite scenario -/

/-- C5: inside a page, the line `1 0 0 setrgbcolor` is deleted, the
line `0.5 w` is replaced by `SetHairlineStroke`, and the line
`10 20 m 30 40 l S` is rewritten in place to
`10 20 m 30 40 l SetCutContourStroke SetHairlineStroke S`, preserving
everything before the stroke token. -/
theorem C5_scenario_rewrite (rest : List (List Char)) :
    processLines false (pgLine :: rgbLineC5 :: wLineC5 :: strokeLineC5 :: rest) =
      pgLine :: shsLine :: strokeLineC5rw :: processLines true rest := by
  have h1 : lineAction false pgLine = .enterPage := by decide
  have h2 : lineAction true rgbLineC5 = .deleteLine := by decide
  have h3 : lineAction true wLineC5 = .widthReplace := by decide
  have h4 : lineAction true strokeLineC5 = .inlineRewrite := by decide
  have h5 : substEnd (substMid strokeLineC5) = strokeLineC5rw := by decide
  simp [processLines, nextInPage, lineOut, h1, h2, h3, h4, h5]

/-! ### Helper lemmas for the standalone-stroke branch -/

theorem sTokL_eq : sTokL = ['S'] := rfl

theorem strokeTokL_eq : strokeTokL = ['s', 't', 'r', 'o', 'k', 'e'] := rfl

theorem containsTok_head_notMem {c : Char} {p l : List Char} (h : c ∉ l) :
    containsTok (c :: p) l = false := by
  induction l with
  | nil => rfl
  | cons x xs ih =>
    have hcx : (c == x) = false := by
      cases hh : (c == x)
      · rfl
      · exact absurd (by rw [eq_of_beq hh]; exact List.mem_cons_self x xs) h
    simp [containsTok, isPre, hcx, ih (fun hm => h (List.mem_cons_of_mem x hm))]

theorem not_mem_append_ws {x : Char} {tok ws : List Char}
    (htok : x ∉ tok) (hx : isWS x = false) (h2 : ∀ c ∈ ws, isWS c = true) :
    x ∉ tok ++ ws := by
  intro hm
  rcases List.mem_append.mp hm with hm | hm
  · exact htok hm
  · rw [h2 x hm] at hx
    cases hx

theorem numSp_head_none {c : Char} {r : List Char}
    (hws : isWS c = false) (hnum : isNumC c = false) :
    numSp (dropWSL (c :: r)) = none := by
  simp [dropWSL, hws, numSp, reqNum1, hnum]

theorem matchers_head_false {c : Char} {r : List Char}
    (hws : isWS c = false) (hnum : isNumC c = false) :
    matchRGB (c :: r) = false ∧ matchCMYK (c :: r) = false ∧
    matchGray (c :: r) = false ∧ matchWidth (c :: r) = false := by
  refine ⟨?_, ?_, ?_, ?_⟩ <;>
    simp [matchRGB, matchCMYK, matchGray, matchWidth, numSp_head_none hws hnum]

theorem hasInlineStroke_allWS : ∀ (ws : List Char), (∀ c ∈ ws, isWS c = true) →
    hasInlineStroke ws = false := by
  intro ws
  induction ws with
  | nil => intro _; rfl
  | cons c r ih =>
    intro h
    have hr := ih (fun x hx => h x (List.mem_cons_of_mem c hx))
    simp only [hasInlineStroke, hr, Bool.or_false]
    cases r with
    | nil => simp [tokAfterWs, sTokL_eq, strokeTokL_eq, isPre]
    | cons d r' =>
      have hd := h d (List.mem_cons_of_mem c (List.mem_cons_self d r'))
      have h1 : ('S' == d) = false := beq_false_of_isWS (by decide) hd
      have h2 : ('s' == d) = false := beq_false_of_isWS (by decide) hd
      simp [tokAfterWs, sTokL_eq, strokeTokL_eq, isPre, h1, h2]

theorem hasInlineStroke_cons_false {c : Char} {r : List Char} (hc : isWS c = false)
    (hr : hasInlineStroke r = false) : hasInlineStroke (c :: r) = false := by
  simp [hasInlineStroke, hc, hr]

theorem isPre_self_append : ∀ (p t : List Char), isPre p (p ++ t) = true := by
  intro p t
  induction p with
  | nil => rfl
  | cons a ps ih => simp [isPre, ih]

theorem lineAction_standalone_S (ws : List Char) (h2 : ∀ c ∈ ws, isWS c = true) :
    lineAction true ('S' :: ws) = .standaloneInsert := by
  have hall : allWSB ws = true := by simpa [allWSB, List.all_eq_true] using h2
  have hpct : '%' ∉ ('S' :: ws) := by
    intro hm
    rcases List.mem_cons.mp hm with h | h
    · exact absurd h (by decide)
    · exact absurd (h2 '%' h) (by decide)
  have hpage : containsTok pageTok ('S' :: ws) = false := containsTok_head_notMem hpct
  have hbps : containsTok bpsTok ('S' :: ws) = false := containsTok_head_notMem hpct
  have htr : containsTok trailerTok ('S' :: ws) = false := containsTok_head_notMem hpct
  have heof : containsTok eofTok ('S' :: ws) = false := containsTok_head_notMem hpct
  obtain ⟨m1, m2, m3, m4⟩ :=
    matchers_head_false (c := 'S') (r := ws) (by decide) (by decide)
  have hin : hasInlineStroke ('S' :: ws) = false :=
    hasInlineStroke_cons_false (by decide) (hasInlineStroke_allWS ws h2)
  have hd : dropWSL ('S' :: ws) = 'S' :: ws := by
    simp [dropWSL, show isWS 'S' = false from by decide]
  have hst : matchStandaloneStroke ('S' :: ws) = true := by
    simp [matchStandaloneStroke, hd, sTokL_eq, isPre, hall]
  simp [lineAction, hpage, hbps, htr, heof, m1, m2, m3, m4, hin, hst]

theorem lineAction_standalone_stroke (ws : List Char) (h2 : ∀ c ∈ ws, isWS c = true) :
    lineAction true ('s' :: 't' :: 'r' :: 'o' :: 'k' :: 'e' :: ws) = .standaloneInsert := by
  have hall : allWSB ws = true := by simpa [allWSB, List.all_eq_true] using h2
  have hpct : '%' ∉ ('s' :: 't' :: 'r' :: 'o' :: 'k' :: 'e' :: ws) := by
    intro hm
    simp only [List.mem_cons] at hm
    rcases hm with h | h | h | h | h | h | h
    · exact absurd h (by decide)
    · exact absurd h (by decide)
    · exact absurd h (by decide)
    · exact absurd h (by decide)
    · exact absurd h (by decide)
    · exact absurd h (by decide)
    · exact absurd (h2 '%' h) (by decide)
  have hpage : containsTok pageTok ('s' :: 't' :: 'r' :: 'o' :: 'k' :: 'e' :: ws) = false :=
    containsTok_head_notMem hpct
  have hbps : containsTok bpsTok ('s' :: 't' :: 'r' :: 'o' :: 'k' :: 'e' :: ws) = false :=
    containsTok_head_notMem hpct
  have htr : containsTok trailerTok ('s' :: 't' :: 'r' :: 'o' :: 'k' :: 'e' :: ws) = false :=
    containsTok_head_notMem hpct
  have heof : containsTok eofTok ('s' :: 't' :: 'r' :: 'o' :: 'k' :: 'e' :: ws) = false :=
    containsTok_head_notMem hpct
  obtain ⟨m1, m2, m3, m4⟩ :=
    matchers_head_false (c := 's') (r := 't' :: 'r' :: 'o' :: 'k' :: 'e' :: ws)
      (by decide) (by decide)
  have hin : hasInlineStroke ('s' :: 't' :: 'r' :: 'o' :: 'k' :: 'e' :: ws) = false := by
    refine hasInlineStroke_cons_false (by decide) ?_
    refine hasInlineStroke_cons_false (by decide) ?_
    refine hasInlineStroke_cons_false (by decide) ?_
    refine hasInlineStroke_cons_false (by decide) ?_
    refine hasInlineStroke_cons_false (by decide) ?_
    exact hasInlineStroke_cons_false (by decide) (hasInlineStroke_allWS ws h2)
  have hp : isPre strokeTokL ('s' :: 't' :: 'r' :: 'o' :: 'k' :: 'e' :: ws) = true :=
    isPre_self_append strokeTokL ws
  have hd : dropWSL ('s' :: 't' :: 'r' :: 'o' :: 'k' :: 'e' :: ws) =
      's' :: 't' :: 'r' :: 'o' :: 'k' :: 'e' :: ws := by
    simp [dropWSL, show isWS 's' = false from by decide]
  have hst : matchStandaloneStroke ('s' :: 't' :: 'r' :: 'o' :: 'k' :: 'e' :: ws) = true := by
    simp [matchStandaloneStroke, hd, hp, hall]
  simp [lineAction, hpage, hbps, htr, heof, m1, m2, m3, m4, hin, hst]

theorem lineAction_standalone {l ws : List Char}
    (h1 : l = sTokL ++ ws ∨ l = strokeTokL ++ ws)
    (h2 : ∀ c ∈ ws, isWS c = true) :
    lineAction true l = .standaloneInsert := by
  rcases h1 with rfl | rfl
  · exact lineAction_standalone_S ws h2
  · exact lineAction_standalone_stroke ws h2

/-! ### Claim C4: stroke-standalone lines -/

/-- C4 (amended): an in-page line that consists of a stroke token
(`S` or `stroke`) with no leading whitespace, followed only by
(optional) trailing whitespace, is preceded by two new lines calling
`SetCutContourStroke` then `SetHairlineStroke`, with the original line
kept verbatim after them.  (A stroke-only line with leading whitespace
is instead handled by the in-place inline rewrite.) -/
theorem C4_standalone_rewrite (l ws : List Char) (rest : List (List Char))
    (h1 : l = sTokL ++ ws ∨ l = strokeTokL ++ ws)
    (h2 : ∀ c ∈ ws, isWS c = true) :
    processLines true (l :: rest) = ccsLine :: shsLine :: l :: processLines true rest := by
  have ha := lineAction_standalone h1 h2
  simp [processLines, lineOut, nextInPage, ha]

/-- Witness for C4 at the line `S`. -/
theorem C4_standalone_rewrite_witness :
    processLines true [sTokL] = [ccsLine, shsLine, sTokL] := by
  have h := C4_standalone_rewrite sTokL [] [] (Or.inl (by simp)) (by simp)
  simpa [processLines] using h

/-- Counterexample for C4 as stated: the in-page line `" S"` trims to
exactly the stroke token `S`, but the rewriter does not emit the two
activation lines before it; the line is rewritten in place by the
inline branch instead. -/
theorem C4_leading_ws_counterexample :
    stripWS spSLine = sTokL ∧
    processLines false [pgLine, spSLine] ≠
      [pgLine, ccsLine, shsLine, spSLine] ∧
    processLines false [pgLine, spSLine] =
      [pgLine, (" SetCutContourStroke SetHairlineStroke S").toList] := by
  refine ⟨by decide, by decide, by decide⟩

/-! ### Helper lemmas: counting activation tokens through the substitutions -/

theorem ccs_no_ws : ∀ c ∈ ccsLine, isWS c = false := by decide

theorem ccs_self_one : countSub ccsLine ccsLine = 1 := by decide

theorem ccs_shs_zero : countSub ccsLine shsLine = 0 := by decide

theorem ccs_sTok_zero : countSub ccsLine sTokL = 0 := by decide

theorem ccs_stroke_zero : countSub ccsLine strokeTokL = 0 := by decide

theorem insText_decomp : insText = ccsLine ++ ' ' :: (shsLine ++ [' ']) := by decide

theorem isPre_ccs_ws {c : Char} (hc : isWS c = true) (X : List Char) :
    isPre ccsLine (c :: X) = false := by
  have h := beq_false_of_isWS (x := 'S') (by decide) hc
  simp [show ccsLine = 'S' :: ("etCutContourStroke").toList from rfl, isPre, h]

theorem countSub_ccs_ws_cons {c : Char} (hc : isWS c = true) (X : List Char) :
    countSub ccsLine (c :: X) = countSub ccsLine X := by
  simp [countSub, isPre_ccs_ws hc X]

theorem countSub_ccs_sep {d : Char} (hd : isWS d = true) :
    ∀ xs ys, countSub ccsLine (xs ++ d :: ys) =
      countSub ccsLine xs + countSub ccsLine ys := by
  intro xs ys
  refine countSub_append_sep ccsLine xs ys ?_
  intro hm
  rw [ccs_no_ws d hm] at hd
  cases hd

theorem countSub_ccs_ins {tok : List Char} (htok : tok = sTokL ∨ tok = strokeTokL)
    {d : Char} (hd : isWS d = true) (Z : List Char) :
    countSub ccsLine (insText ++ (tok ++ (d :: Z))) = 1 + countSub ccsLine Z := by
  have hins : insText ++ (tok ++ (d :: Z)) =
      ccsLine ++ ' ' :: (shsLine ++ ' ' :: (tok ++ d :: Z)) := by
    rw [insText_decomp]
    simp
  rw [hins]
  rw [countSub_ccs_sep (by decide) ccsLine (shsLine ++ ' ' :: (tok ++ d :: Z))]
  rw [countSub_ccs_sep (by decide) shsLine (tok ++ d :: Z)]
  rw [countSub_ccs_sep hd tok Z]
  rcases htok with rfl | rfl <;>
    simp [ccs_self_one, ccs_shs_zero, ccs_sTok_zero, ccs_stroke_zero]

theorem midTry_spec {rest tok : List Char} {d : Char} {r : List Char}
    (h : midTry rest = some (tok, d, r)) :
    rest = tok ++ d :: r ∧ (tok = sTokL ∨ tok = strokeTokL) ∧ isWS d = true := by
  unfold midTry at h
  by_cases h1 : isPre sTokL rest = true
  · rw [if_pos h1] at h
    cases hd : rest.drop 1 with
    | nil => rw [hd] at h; cases h
    | cons d' r' =>
      rw [hd] at h
      change (if isWS d' = true then some (sTokL, d', r') else none) = some (tok, d, r) at h
      by_cases h2 : isWS d' = true
      · rw [if_pos h2] at h
        simp only [Option.some.injEq, Prod.mk.injEq] at h
        obtain ⟨h4, h5, h6⟩ := h
        subst h4; subst h5; subst h6
        refine ⟨?_, Or.inl rfl, h2⟩
        have := isPre_append sTokL rest h1
        rw [show sTokL.length = 1 from rfl, hd] at this
        exact this
      · rw [if_neg h2] at h; cases h
  · rw [if_neg h1] at h
    by_cases h3 : isPre strokeTokL rest = true
    · rw [if_pos h3] at h
      cases hd : rest.drop 6 with
      | nil => rw [hd] at h; cases h
      | cons d' r' =>
        rw [hd] at h
        change (if isWS d' = true then some (strokeTokL, d', r') else none) = some (tok, d, r) at h
        by_cases h2 : isWS d' = true
        · rw [if_pos h2] at h
          simp only [Option.some.injEq, Prod.mk.injEq] at h
          obtain ⟨h4, h5, h6⟩ := h
          subst h4; subst h5; subst h6
          refine ⟨?_, Or.inr rfl, h2⟩
          have := isPre_append strokeTokL rest h3
          rw [show strokeTokL.length = 6 from rfl, hd] at this
          exact this
        · rw [if_neg h2] at h; cases h
    · rw [if_neg h3] at h; cases h

theorem isPre_substEnd : ∀ (X p : List Char), (∀ c ∈ p, isWS c = false) →
    isPre p (substEnd X) = isPre p X := by
  intro X
  induction X with
  | nil => intro p _; rfl
  | cons c rest ih =>
    intro p hp
    by_cases hf : (isWS c && (rest == sTokL || rest == strokeTokL)) = true
    · have hcw : isWS c = true := by
        have := hf
        simp only [Bool.and_eq_true] at this
        exact this.1
      cases p with
      | nil => rfl
      | cons a p' =>
        have ha : (a == c) = false :=
          beq_false_of_isWS (hp a (List.mem_cons_self a p')) hcw
        simp [substEnd, hf, isPre, ha]
    · cases p with
      | nil => rfl
      | cons a p' =>
        have hrest := ih p' (fun x hx => hp x (List.mem_cons_of_mem a hx))
        simp [substEnd, hf, isPre, hrest]

theorem countSub_substEnd : ∀ (X : List Char),
    countSub ccsLine (substEnd X) =
      countSub ccsLine X + (if endFires X then 1 else 0) := by
  intro X
  induction X with
  | nil => simp [substEnd, endFires]
  | cons c rest ih =>
    by_cases hf : (isWS c && (rest == sTokL || rest == strokeTokL)) = true
    · have hcw : isWS c = true := by
        have := hf
        simp only [Bool.and_eq_true] at this
        exact this.1
      have hrest : rest = sTokL ∨ rest = strokeTokL := by
        have := hf
        simp only [Bool.and_eq_true, Bool.or_eq_true, beq_iff_eq] at this
        exact this.2
      rw [show substEnd (c :: rest) = c :: (insText ++ rest) from by simp [substEnd, hf]]
      rw [show endFires (c :: rest) = true from by simp [endFires, hf]]
      rw [countSub_ccs_ws_cons hcw, countSub_ccs_ws_cons hcw]
      rw [show insText ++ rest = ccsLine ++ ' ' :: (shsLine ++ (' ' :: rest)) from by
        rw [insText_decomp]; simp]
      rw [countSub_ccs_sep (by decide) ccsLine (shsLine ++ (' ' :: rest))]
      rw [countSub_ccs_sep (by decide) shsLine rest]
      rcases hrest with rfl | rfl <;>
        simp [ccs_self_one, ccs_shs_zero, ccs_sTok_zero, ccs_stroke_zero]
    · have he : substEnd (c :: rest) = c :: substEnd rest := by simp [substEnd, hf]
      rw [he]
      rw [show endFires (c :: rest) = endFires rest from by simp [endFires, hf]]
      simp only [countSub]
      have h1 : isPre ccsLine (c :: substEnd rest) = isPre ccsLine (c :: rest) := by
        rw [← he]
        exact isPre_substEnd (c :: rest) ccsLine ccs_no_ws
      simp only [h1]
      rw [ih]
      omega

theorem isPre_substMidF : ∀ (n : Nat) (X p : List Char), (∀ c ∈ p, isWS c = false) →
    isPre p (substMidF n X) = isPre p X := by
  intro n
  induction n with
  | zero => intro X p _; rfl
  | succ n ih =>
    intro X p hp
    cases X with
    | nil => rfl
    | cons c rest =>
      by_cases hcw : isWS c = true
      · cases hm : midTry rest with
        | none =>
          cases p with
          | nil => rfl
          | cons a p' =>
            have ha : (a == c) = false :=
              beq_false_of_isWS (hp a (List.mem_cons_self a p')) hcw
            simp [substMidF, hcw, hm, isPre, ha]
        | some t =>
          obtain ⟨tok, d, r⟩ := t
          cases p with
          | nil => rfl
          | cons a p' =>
            have ha : (a == c) = false :=
              beq_false_of_isWS (hp a (List.mem_cons_self a p')) hcw
            simp [substMidF, hcw, hm, isPre, ha]
      · cases p with
        | nil => rfl
        | cons a p' =>
          have hrest := ih rest p' (fun x hx => hp x (List.mem_cons_of_mem a hx))
          simp [substMidF, hcw, isPre, hrest]

theorem countSub_substMidF : ∀ (n : Nat) (X : List Char), X.length ≤ n →
    countSub ccsLine (substMidF n X) = countSub ccsLine X + midCountF n X := by
  intro n
  induction n with
  | zero =>
    intro X hX
    have hXe : X = [] := List.eq_nil_of_length_eq_zero (Nat.le_zero.mp hX)
    subst hXe
    simp [substMidF, midCountF]
  | succ n ih =>
    intro X hX
    cases X with
    | nil => simp [substMidF, midCountF]
    | cons c rest =>
      have hrl : rest.length ≤ n := by
        simp only [List.length_cons] at hX
        omega
      by_cases hcw : isWS c = true
      · cases hm : midTry rest with
        | none =>
          rw [show substMidF (n + 1) (c :: rest) = c :: substMidF n rest from by
            simp [substMidF, hcw, hm]]
          rw [show midCountF (n + 1) (c :: rest) = midCountF n rest from by
            simp [midCountF, hcw, hm]]
          rw [countSub_ccs_ws_cons hcw, countSub_ccs_ws_cons hcw, ih rest hrl]
        | some t =>
          obtain ⟨tok, d, r⟩ := t
          obtain ⟨hrest, htok, hd⟩ := midTry_spec hm
          have hr : r.length ≤ n := by
            rw [hrest] at hrl
            rw [List.length_append, List.length_cons] at hrl
            omega
          rw [show substMidF (n + 1) (c :: rest) =
              c :: (insText ++ (tok ++ (d :: substMidF n r))) from by
            simp [substMidF, hcw, hm]]
          rw [show midCountF (n + 1) (c :: rest) = 1 + midCountF n r from by
            simp [midCountF, hcw, hm]]
          rw [countSub_ccs_ws_cons hcw, countSub_ccs_ws_cons hcw]
          rw [countSub_ccs_ins htok hd (substMidF n r)]
          rw [ih r hr]
          rw [hrest, countSub_ccs_sep hd tok r]
          rcases htok with rfl | rfl <;>
            simp [ccs_sTok_zero, ccs_stroke_zero] <;> omega
      · have he : substMidF (n + 1) (c :: rest) = c :: substMidF n rest := by
          simp [substMidF, hcw]
        rw [he]
        rw [show midCountF (n + 1) (c :: rest) = midCountF n rest from by
          simp [midCountF, hcw]]
        simp only [countSub]
        have h1 : isPre ccsLine (c :: substMidF n rest) = isPre ccsLine (c :: rest) := by
          rw [← he]
          exact isPre_substMidF (n + 1) (c :: rest) ccsLine ccs_no_ws
        simp only [h1]
        rw [ih rest hrl]
        omega

theorem countSub_substMid (X : List Char) :
    countSub ccsLine (substMid X) = countSub ccsLine X + midCount X :=
  countSub_substMidF X.length X (Nat.le_refl _)

theorem countSub_inline (l : List Char) (h : countSub ccsLine l = 0) :
    countSub ccsLine (substEnd (substMid l)) = lineSites l := by
  rw [countSub_substEnd (substMid l), countSub_substMid l, h, lineSites]
  omega

/-! ### The aggregated activation count over a whole document -/

theorem action_inpage {s : Bool} {l : List Char}
    (ha : lineAction s l = .inlineRewrite ∨ lineAction s l = .standaloneInsert ∨
          lineAction s l = .deleteLine ∨ lineAction s l = .widthReplace) :
    s = true := by
  cases s
  · exfalso
    rcases lineAction_false l with h | h | h <;>
      rcases ha with ha | ha | ha | ha <;> rw [h] at ha <;> cases ha
  · rfl

theorem processLines_ccs : ∀ (L : List (List Char)) (s : Bool),
    (∀ l ∈ L, countSub ccsLine l = 0) →
    linesCcs (processLines s L) = standaloneCount s L + inlineSites s L ∧
    (∀ pr ∈ processAnnot s L, pr.1 = false → countSub ccsLine pr.2 = 0) := by
  intro L
  induction L with
  | nil =>
    intro s _
    exact ⟨rfl, by simp [processAnnot]⟩
  | cons l rest ih =>
    intro s h
    have hl := h l (List.mem_cons_self l rest)
    have hrest : ∀ x ∈ rest, countSub ccsLine x = 0 :=
      fun x hx => h x (List.mem_cons_of_mem l hx)
    obtain ⟨ih1, ih2⟩ := ih (nextInPage s l) hrest
    constructor
    · simp only [processLines, linesCcs, List.map_append, List.sum_append,
        standaloneCount, inlineSites]
      simp only [linesCcs] at ih1
      cases ha : lineAction s l with
      | enterPage => simp [lineOut, hl, ih1]
      | exitPage => simp [lineOut, hl, ih1]
      | passthrough => simp [lineOut, hl, ih1]
      | deleteLine => simp [lineOut, ih1]
      | widthReplace => simp [lineOut, ccs_shs_zero, ih1]
      | inlineRewrite =>
        simp [lineOut, countSub_inline l hl, ih1]
        omega
      | standaloneInsert =>
        simp [lineOut, ccs_self_one, ccs_shs_zero, hl, ih1]
        omega
    · intro pr hpr hfalse
      simp only [processAnnot, List.mem_append] at hpr
      rcases hpr with hpr | hpr
      · simp only [List.mem_map] at hpr
        obtain ⟨t, ht, rfl⟩ := hpr
        simp only at hfalse
        cases ha : lineAction s l with
        | enterPage =>
          rw [show nextInPage s l = true from by simp [nextInPage, ha]] at hfalse
          cases hfalse
        | exitPage =>
          rw [ha] at ht
          simp only [lineOut, List.mem_singleton] at ht
          subst ht
          exact hl
        | passthrough =>
          rw [ha] at ht
          simp only [lineOut, List.mem_singleton] at ht
          subst ht
          exact hl
        | deleteLine =>
          rw [ha] at ht
          simp [lineOut] at ht
        | widthReplace =>
          rw [ha] at ht
          simp only [lineOut, List.mem_singleton] at ht
          subst ht
          exact ccs_shs_zero
        | inlineRewrite =>
          have hs : s = true := action_inpage (Or.inl ha)
          rw [show nextInPage s l = s from by simp [nextInPage, ha], hs] at hfalse
          cases hfalse
        | standaloneInsert =>
          have hs : s = true := action_inpage (Or.inr (Or.inl ha))
          rw [show nextInPage s l = s from by simp [nextInPage, ha], hs] at hfalse
          cases hfalse
      · exact ih2 pr hpr hfalse

/-! ### Claim C3: activation-call count -/

/-- C3 (amended): for every Document none of whose lines already
contains the token `SetCutContourStroke`, the Stroke Rewriter output
contains exactly N + M occurrences of that token, where N is the
number of in-page stroke-standalone lines and M is the total number of
stroke-token sites rewritten over the in-page stroke-inline lines (a
line with several separated stroke tokens contributes one occurrence
per site); and every line emitted while outside a page region carries
no occurrence. -/
theorem C3_activation_count (content : List Char)
    (h : ∀ l ∈ splitLines content, countSub ccsLine l = 0) :
    countSub ccsLine (replace_stroke_commands content) =
      standaloneCount false (splitLines content) +
        inlineSites false (splitLines content) ∧
    (∀ pr ∈ processAnnot false (splitLines content), pr.1 = false →
      countSub ccsLine pr.2 = 0) := by
  obtain ⟨h1, h2⟩ := processLines_ccs (splitLines content) false h
  refine ⟨?_, h2⟩
  unfold replace_stroke_commands
  rw [countSub_joinLines ccsLine (by decide) (by decide)]
  simpa [linesCcs] using h1

/-- Witness for C3 on a document with one standalone stroke line and
one single-site inline stroke line. -/
theorem C3_activation_count_witness :
    (∀ l ∈ splitLines ccsWitnessDoc, countSub ccsLine l = 0) ∧
    (countSub ccsLine (replace_stroke_commands ccsWitnessDoc) =
      standaloneCount false (splitLines ccsWitnessDoc) +
        inlineSites false (splitLines ccsWitnessDoc) ∧
     (∀ pr ∈ processAnnot false (splitLines ccsWitnessDoc), pr.1 = false →
       countSub ccsLine pr.2 = 0)) :=
  ⟨by decide, C3_activation_count ccsWitnessDoc (by decide)⟩

/-- Counterexample for C3 as stated (with M counting stroke-inline
lines): on a document whose in-page stroke line holds two separated
stroke tokens and whose header already holds the activation token, the
output count is not N + M and an occurrence sits outside any page
region. -/
theorem C3_count_counterexample :
    ¬ (countSub ccsLine (replace_stroke_commands ccsCountDoc) =
         standaloneCount false (splitLines ccsCountDoc) +
           inlineLineCount false (splitLines ccsCountDoc) ∧
       ∀ pr ∈ processAnnot false (splitLines ccsCountDoc), pr.1 = false →
         countSub ccsLine pr.2 = 0) := by
  decide
